import Mathlib

/-!
Verification of the bounded-buffer core of the repository
(src/mandatory/src/bounded_buffer.c) against its specification.

The buffer state is embedded shallowly: the C struct `buffer_t` becomes a
Lean structure whose three `psem_t *` fields are represented by the counts
of the corresponding counting semaphores (the semaphore primitive psem is
declared in psem.h, which is not among the sources; its wait/signal
semantics are modelled from the spec, section 4.1).  The bodies of
`buffer_put` and `buffer_get` are transliterated statement by statement
into lists of primitive instructions, executed by a small interpreter in
which a `psem_wait` on a zero-count semaphore blocks.  A call that runs
all its instructions is a completed call; sequences of completed calls
give the reachable states.
-/

/-- The item type: C struct `tuple_t` with two int fields `a` and `b`. -/
structure tuple_t where
  a : Int
  b : Int
deriving Repr, DecidableEq

instance : Inhabited tuple_t := ⟨⟨0, 0⟩⟩

/-- C struct `buffer_t` (fields as used in bounded_buffer.c).  The three
semaphore pointer fields `mutex`, `data`, `empty` are represented by the
current counts of those semaphores. -/
structure buffer_t where
  array : List tuple_t
  size : Nat
  «in» : Nat
  out : Nat
  mutex : Nat
  data : Nat
  empty : Nat
deriving Repr, DecidableEq

/-- Names of the three semaphores held by a buffer. -/
inductive SemName
  | mutex
  | data
  | empty
deriving Repr, DecidableEq

/-- Count of the named semaphore. -/
def buffer_t.semCount (b : buffer_t) : SemName → Nat
  | .mutex => b.mutex
  | .data => b.data
  | .empty => b.empty

/-- Decrement the named semaphore (a completed `psem_wait`). -/
def buffer_t.semDec (b : buffer_t) : SemName → buffer_t
  | .mutex => { b with mutex := b.mutex - 1 }
  | .data => { b with data := b.data - 1 }
  | .empty => { b with empty := b.empty - 1 }

/-- Increment the named semaphore (a `psem_signal`). -/
def buffer_t.semInc (b : buffer_t) : SemName → buffer_t
  | .mutex => { b with mutex := b.mutex + 1 }
  | .data => { b with data := b.data + 1 }
  | .empty => { b with empty := b.empty + 1 }

/-- The primitive statements appearing in the bodies of `buffer_put` and
`buffer_get` in bounded_buffer.c, one constructor per C statement. -/
inductive Instr
  | psem_wait (s : SemName)
  | psem_signal (s : SemName)
  /-- `buffer->array[buffer->in].a = a;` -/
  | write_a (v : Int)
  /-- `buffer->array[buffer->in].b = b;` -/
  | write_b (v : Int)
  /-- `buffer->in = (buffer->in + 1) % buffer->size;` -/
  | advance_in
  /-- `tuple->a = buffer->array[buffer->out].a;` -/
  | read_a
  /-- `tuple->b = buffer->array[buffer->out].b;` -/
  | read_b
  /-- `buffer->out = (buffer->out + 1) % buffer->size;` -/
  | advance_out
deriving Repr, DecidableEq

/-- State of one call: the buffer and the caller-supplied `tuple_t`
(the out-parameter of `buffer_get`; unused by `buffer_put`). -/
structure CallState where
  buf : buffer_t
  tuple : tuple_t
deriving Repr, DecidableEq

/-- Effect of one instruction.  `psem_wait` on a zero-count semaphore
cannot proceed (the calling thread blocks): result `none`.
Modelled from the spec: `wait` atomically decrements a positive count and
otherwise blocks; `signal` atomically increments the count (psem.c is not
among the sources). -/
def execInstr (st : CallState) : Instr → Option CallState
  | .psem_wait s =>
      if 0 < st.buf.semCount s then some { st with buf := st.buf.semDec s } else none
  | .psem_signal s => some { st with buf := st.buf.semInc s }
  | .write_a v =>
      let i := st.buf.«in»
      let slot := st.buf.array.getD i default
      some { st with buf := { st.buf with array := st.buf.array.set i { slot with a := v } } }
  | .write_b v =>
      let i := st.buf.«in»
      let slot := st.buf.array.getD i default
      some { st with buf := { st.buf with array := st.buf.array.set i { slot with b := v } } }
  | .advance_in =>
      some { st with buf := { st.buf with «in» := (st.buf.«in» + 1) % st.buf.size } }
  | .read_a =>
      some { st with tuple := { st.tuple with a := (st.buf.array.getD st.buf.out default).a } }
  | .read_b =>
      some { st with tuple := { st.tuple with b := (st.buf.array.getD st.buf.out default).b } }
  | .advance_out =>
      some { st with buf := { st.buf with out := (st.buf.out + 1) % st.buf.size } }

/-- Outcome of running a call body: either all statements completed, or the
call is blocked at a `psem_wait` with the state at that point. -/
inductive ExecResult
  | done (st : CallState)
  | blocked (i : Instr) (st : CallState)
deriving Repr, DecidableEq

/-- Run a list of instructions, returning the executed prefix (the trace)
and the outcome. -/
def exec : List Instr → CallState → List Instr × ExecResult
  | [], st => ([], .done st)
  | i :: is, st =>
      match execInstr st i with
      | some st' =>
          let (tr, r) := exec is st'
          (i :: tr, r)
      | none => ([], .blocked i st)

/-- Body of `buffer_put` (bounded_buffer.c lines 87-120), statement by
statement in source order. -/
def put_prog (a b : Int) : List Instr :=
  [.psem_wait .empty, .psem_wait .mutex, .write_a a, .write_b b,
   .advance_in, .psem_signal .mutex, .psem_signal .data]

/-- Body of `buffer_get` (bounded_buffer.c lines 122-155), statement by
statement in source order. -/
def get_prog : List Instr :=
  [.psem_wait .data, .psem_wait .mutex, .read_a, .read_b,
   .advance_out, .psem_signal .mutex, .psem_signal .empty]

/-- `buffer_put(buffer, a, b)`: run the body on the buffer. -/
def buffer_put (buffer : buffer_t) (a b : Int) : List Instr × ExecResult :=
  exec (put_prog a b) { buf := buffer, tuple := default }

/-- `buffer_get(buffer, tuple)`: run the body on the buffer with the
caller's tuple. -/
def buffer_get (buffer : buffer_t) (tuple : tuple_t) : List Instr × ExecResult :=
  exec get_prog { buf := buffer, tuple := tuple }

/-- State of the buffer fields set by `buffer_init(buffer, size)`
(bounded_buffer.c lines 26-45) when the allocation succeeds.  malloc
returns uninitialized memory; the model fills the fresh array with the
default tuple. -/
def buffer_init_state (size : Nat) : buffer_t :=
  { array := List.replicate size default
    size := size
    «in» := 0
    out := 0
    mutex := 1
    data := 0
    empty := size }

/-- Outcome of `buffer_init`: either the initialized buffer, or process
termination via `exit(EXIT_FAILURE)` when malloc returned NULL. -/
inductive InitResult
  | ok (b : buffer_t)
  | exitFailure
deriving Repr, DecidableEq

/-- `buffer_init(buffer, size)`: `malloc_ok` says whether the malloc of the
array succeeded.  On failure the process exits; otherwise every field is
assigned (lines 38-44). -/
def buffer_init (malloc_ok : Bool) (size : Nat) : InitResult :=
  if malloc_ok then .ok (buffer_init_state size) else .exitFailure

/-- A completed operation on the buffer. -/
inductive Op
  | put (a b : Int)
  | get
deriving Repr, DecidableEq

/-- Run one completed call on the buffer: `none` if the call blocks.
A completed `get` additionally yields the tuple it wrote for the caller. -/
def stepOp (b : buffer_t) : Op → Option (buffer_t × Option tuple_t)
  | .put a v =>
      match buffer_put b a v with
      | (_, .done st) => some (st.buf, none)
      | (_, .blocked _ _) => none
  | .get =>
      match buffer_get b default with
      | (_, .done st) => some (st.buf, some st.tuple)
      | (_, .blocked _ _) => none

/-- Run a sequence of completed calls, collecting the tuples returned by
the `get` calls in order. -/
def runOps (b : buffer_t) : List Op → Option (buffer_t × List tuple_t)
  | [] => some (b, [])
  | op :: ops =>
      match stepOp b op with
      | some (b', r) =>
          match runOps b' ops with
          | some (bf, outs) => some (bf, r.toList ++ outs)
          | none => none
      | none => none

/-- The tuples passed to the `put` calls of a sequence, in order. -/
def putsOf : List Op → List tuple_t
  | [] => []
  | .put a b :: ops => ⟨a, b⟩ :: putsOf ops
  | .get :: ops => putsOf ops

/-- Number of `get` calls in a sequence. -/
def countGets : List Op → Nat
  | [] => 0
  | .put _ _ :: ops => countGets ops
  | .get :: ops => countGets ops + 1

/-- Number of `put` calls in a sequence. -/
def countPuts : List Op → Nat
  | [] => 0
  | .put _ _ :: ops => countPuts ops + 1
  | .get :: ops => countPuts ops

/-- The unread items of the buffer: the `data`-many slots starting at
`out`, in circular order. -/
def pending (b : buffer_t) : List tuple_t :=
  (List.range b.data).map (fun i => b.array.getD ((b.out + i) % b.size) default)

/-- The state invariant of a buffer of capacity `N` maintained by
completed `put`/`get` calls. -/
structure BufInv (N : Nat) (b : buffer_t) : Prop where
  hsize : b.size = N
  hlen : b.array.length = N
  hmutex : b.mutex = 1
  hcons : b.data + b.empty = N
  hin : b.«in» = (b.out + b.data) % N
  hout : 0 < N → b.out < N

/-- A state reachable from a freshly initialized buffer of capacity `N` by
a sequence of completed calls. -/
def Reachable (N : Nat) (b : buffer_t) : Prop :=
  ∃ ops outs, runOps (buffer_init_state N) ops = some (b, outs)

/-! ### Semaphore identity model for `buffer_init`

`buffer_init` stores into each buffer three semaphores obtained from three
calls to `psem_init` (bounded_buffer.c lines 42-44). -/

/-- Modelled from the spec: `psem_init(initial_count)` creates a NEW
semaphore instance with the given count (spec section 4.1; psem.h/psem.c
are not among the sources).  Instances are identified by allocation
order. -/
structure psem_t where
  id : Nat
  count : Nat
deriving Repr, DecidableEq

/-- Allocation state: the id of the next semaphore to be created. -/
structure SemStore where
  next : Nat
deriving Repr, DecidableEq

/-- Modelled from the spec: allocate a fresh semaphore instance. -/
def psem_init (store : SemStore) (count : Nat) : psem_t × SemStore :=
  (⟨store.next, count⟩, ⟨store.next + 1⟩)

/-- The semaphore instances a buffer holds after `buffer_init`. -/
structure bufferSems_t where
  mutex : psem_t
  data : psem_t
  empty : psem_t
deriving Repr, DecidableEq

/-- The semaphore allocations of `buffer_init(buffer, size)`
(bounded_buffer.c lines 42-44, in source order):
`buffer->mutex = psem_init(1); buffer->data = psem_init(0);
buffer->empty = psem_init(size);`. -/
def buffer_init_sems (store : SemStore) (size : Nat) : bufferSems_t × SemStore :=
  let (m, s1) := psem_init store 1
  let (d, s2) := psem_init s1 0
  let (e, s3) := psem_init s2 size
  (⟨m, d, e⟩, s3)

/-- The buffer state after `put(1,1)`, `get`, `put(2,2)` on a fresh
capacity-2 buffer; used by the witness below. -/
def exampleBuf2 : buffer_t :=
  { array := [⟨1, 1⟩, ⟨2, 2⟩], size := 2, «in» := 0, out := 1,
    mutex := 1, data := 1, empty := 1 }

/-! ### Helper lemmas -/

theorem getD_set_self (l : List tuple_t) (i : Nat) (x d : tuple_t) (h : i < l.length) :
    (l.set i x).getD i d = x := by
  simp [List.getD_eq_getElem?_getD, List.getElem?_set_self h]

theorem getD_set_ne (l : List tuple_t) (i j : Nat) (x d : tuple_t) (h : i ≠ j) :
    (l.set i x).getD j d = l.getD j d := by
  simp [List.getD_eq_getElem?_getD, List.getElem?_set_ne h]

theorem mod_add_ne (N out i j : Nat) (hij : i < j) (hj : j < N) :
    (out + i) % N ≠ (out + j) % N := by
  intro h
  have h2 : i ≡ j [MOD N] := Nat.ModEq.add_left_cancel' out h
  have h3 : i % N = j % N := h2
  rw [Nat.mod_eq_of_lt (lt_trans hij hj), Nat.mod_eq_of_lt hj] at h3
  omega

/-! ### Characterization of completed and blocked calls -/

/-- A `buffer_put` whose two waits can proceed executes its whole body and
produces the expected state. -/
theorem buffer_put_done (b : buffer_t) (a v : Int) (he : 0 < b.empty) (hm : 0 < b.mutex)
    (hi : b.«in» < b.array.length) :
    buffer_put b a v = (put_prog a v, .done
      { buf := { b with
          array := b.array.set b.«in» ⟨a, v⟩
          «in» := (b.«in» + 1) % b.size
          data := b.data + 1
          empty := b.empty - 1 }
        tuple := default }) := by
  have hm' : b.mutex - 1 + 1 = b.mutex := Nat.succ_pred_eq_of_pos hm
  simp [buffer_put, put_prog, exec, execInstr, buffer_t.semCount, buffer_t.semDec,
    buffer_t.semInc, he, hm, hm', hi, List.set_set]

/-- A `buffer_put` on a buffer whose empty-slots semaphore has count 0
blocks at the first statement: no later statement runs. -/
theorem buffer_put_blocked (b : buffer_t) (a v : Int) (he : b.empty = 0) :
    buffer_put b a v = ([], .blocked (.psem_wait .empty) { buf := b, tuple := default }) := by
  simp [buffer_put, put_prog, exec, execInstr, buffer_t.semCount, he]

/-- A `buffer_get` whose two waits can proceed executes its whole body and
produces the expected state and output tuple. -/
theorem buffer_get_done (b : buffer_t) (t : tuple_t) (hd : 0 < b.data) (hm : 0 < b.mutex) :
    buffer_get b t = (get_prog, .done
      { buf := { b with
          out := (b.out + 1) % b.size
          data := b.data - 1
          empty := b.empty + 1 }
        tuple := b.array.getD b.out default }) := by
  have hm' : b.mutex - 1 + 1 = b.mutex := Nat.succ_pred_eq_of_pos hm
  simp [buffer_get, get_prog, exec, execInstr, buffer_t.semCount, buffer_t.semDec,
    buffer_t.semInc, hd, hm, hm']

/-- A `buffer_get` on a buffer whose filled-slots semaphore has count 0
blocks at the first statement. -/
theorem buffer_get_blocked (b : buffer_t) (t : tuple_t) (hd : b.data = 0) :
    buffer_get b t = ([], .blocked (.psem_wait .data) { buf := b, tuple := t }) := by
  simp [buffer_get, get_prog, exec, execInstr, buffer_t.semCount, hd]

/-! ### Invariant preservation and the pending-queue abstraction -/

/-- A completed `put` preserves the invariant, appends its tuple to the
pending queue, and moves one unit from `empty` to `data`. -/
theorem stepOp_put (N : Nat) (b : buffer_t) (hInv : BufInv N b) (a v : Int)
    (b' : buffer_t) (r : Option tuple_t) (h : stepOp b (.put a v) = some (b', r)) :
    0 < b.empty ∧ r = none ∧ BufInv N b' ∧
    pending b' = pending b ++ [⟨a, v⟩] ∧
    b'.data = b.data + 1 ∧ b'.empty = b.empty - 1 := by
  obtain ⟨hsize, hlen, hmutex, hcons, hin, hout⟩ := hInv
  rcases Nat.eq_zero_or_pos b.empty with he | he
  · rw [stepOp, buffer_put_blocked b a v he] at h
    exact absurd h (by simp)
  have hN : 0 < N := by omega
  have hdlt : b.data < N := by omega
  have hi : b.«in» < b.array.length := by
    rw [hlen, hin]
    exact Nat.mod_lt _ hN
  rw [stepOp, buffer_put_done b a v he (by omega) hi] at h
  simp only [Option.some.injEq, Prod.mk.injEq] at h
  obtain ⟨hb', hr⟩ := h
  subst hb'
  refine ⟨he, hr.symm, ⟨hsize, by simpa using hlen, hmutex, by simp; omega, ?_, by simpa using hout⟩, ?_, by simp, by simp⟩
  · simp only [hsize, hin]
    rw [Nat.mod_add_mod, Nat.add_assoc]
  · simp only [pending, hsize]
    rw [List.range_succ, List.map_append]
    congr 1
    · refine List.map_congr_left ?_
      intro i hi2
      rw [List.mem_range] at hi2
      refine getD_set_ne _ _ _ _ _ ?_
      rw [hin]
      exact (mod_add_ne N b.out i b.data hi2 hdlt).symm
    · simp only [List.map_cons, List.map_nil]
      rw [show (b.out + b.data) % N = b.«in» from hin.symm]
      rw [getD_set_self _ _ _ _ hi]

/-- A completed `get` preserves the invariant, pops the head of the pending
queue (which it returns), and moves one unit from `data` to `empty`. -/
theorem stepOp_get (N : Nat) (b : buffer_t) (hInv : BufInv N b)
    (b' : buffer_t) (r : Option tuple_t) (h : stepOp b .get = some (b', r)) :
    0 < b.data ∧ r = some (b.array.getD b.out default) ∧ BufInv N b' ∧
    pending b = b.array.getD b.out default :: pending b' ∧
    b'.data = b.data - 1 ∧ b'.empty = b.empty + 1 := by
  obtain ⟨hsize, hlen, hmutex, hcons, hin, hout⟩ := hInv
  rcases Nat.eq_zero_or_pos b.data with hd | hd
  · rw [stepOp, buffer_get_blocked b default hd] at h
    exact absurd h (by simp)
  have hN : 0 < N := by omega
  have houtlt : b.out < N := hout hN
  rw [stepOp, buffer_get_done b default hd (by omega)] at h
  simp only [Option.some.injEq, Prod.mk.injEq] at h
  obtain ⟨hb', hr⟩ := h
  subst hb'
  refine ⟨hd, hr.symm, ⟨hsize, hlen, hmutex, by simp; omega, ?_, ?_⟩, ?_, by simp, by simp⟩
  · simp only [hsize, Nat.mod_add_mod]
    rw [show b.out + 1 + (b.data - 1) = b.out + b.data from by omega]
    exact hin
  · intro _
    rw [hsize]
    exact Nat.mod_lt _ hN
  · obtain ⟨k, hk⟩ : ∃ k, b.data = k + 1 := ⟨b.data - 1, by omega⟩
    simp only [pending, hsize, hk, Nat.add_sub_cancel]
    rw [List.range_succ_eq_map, List.map_cons, List.map_map]
    congr 1
    · simp [Nat.mod_eq_of_lt houtlt]
    · refine List.map_congr_left ?_
      intro i _
      simp only [Function.comp_apply, Nat.succ_eq_add_one, Nat.mod_add_mod]
      rw [show b.out + (i + 1) = b.out + 1 + i from by omega]

/-- The freshly initialized buffer satisfies the invariant. -/
theorem bufInv_init (N : Nat) : BufInv N (buffer_init_state N) := by
  refine ⟨rfl, by simp [buffer_init_state], rfl, by simp [buffer_init_state], by simp [buffer_init_state], ?_⟩
  intro h
  simpa [buffer_init_state] using h

/-- The pending queue of a freshly initialized buffer is empty. -/
theorem pending_init (N : Nat) : pending (buffer_init_state N) = [] := by
  simp [pending, buffer_init_state]

/-- Main run lemma: any sequence of completed calls from an invariant
state preserves the invariant; the tuples returned by the `get` calls
followed by the still-pending items are exactly the initially pending
items followed by the tuples passed to the `put` calls, in order; and the
two semaphore counts track the numbers of puts and gets. -/
theorem runOps_spec (N : Nat) (ops : List Op) :
    ∀ b0 : buffer_t, BufInv N b0 → ∀ bf outs, runOps b0 ops = some (bf, outs) →
    BufInv N bf ∧ outs ++ pending bf = pending b0 ++ putsOf ops ∧
    outs.length = countGets ops ∧
    bf.data + countGets ops = b0.data + countPuts ops ∧
    bf.empty + countPuts ops = b0.empty + countGets ops := by
  induction ops with
  | nil =>
      intro b0 h0 bf outs hrun
      simp only [runOps, Option.some.injEq, Prod.mk.injEq] at hrun
      obtain ⟨rfl, rfl⟩ := hrun
      simp [putsOf, countGets, countPuts, h0]
  | cons op ops ih =>
      intro b0 h0 bf outs hrun
      simp only [runOps] at hrun
      cases hso : stepOp b0 op with
      | none => rw [hso] at hrun; exact absurd hrun (by simp)
      | some pr =>
          obtain ⟨b1, r⟩ := pr
          rw [hso] at hrun
          dsimp only at hrun
          cases hrr : runOps b1 ops with
          | none => rw [hrr] at hrun; exact absurd hrun (by simp)
          | some pr2 =>
              obtain ⟨bf', outs'⟩ := pr2
              rw [hrr] at hrun
              simp only [Option.some.injEq, Prod.mk.injEq] at hrun
              obtain ⟨rfl, rfl⟩ := hrun
              cases op with
              | put a v =>
                  obtain ⟨he, rfl, h1, hp, hdata, hempty⟩ := stepOp_put N b0 h0 a v b1 _ hso
                  obtain ⟨hInvf, hpend, hlen, hcg, hcp⟩ := ih b1 h1 bf' outs' hrr
                  refine ⟨hInvf, ?_, by simpa [countGets] using hlen, ?_, ?_⟩
                  · simp only [Option.toList_none, List.nil_append, putsOf]
                    rw [hpend, hp]
                    simp
                  · simp only [countGets, countPuts]
                    omega
                  · simp only [countGets, countPuts]
                    omega
              | get =>
                  obtain ⟨hd, rfl, h1, hp, hdata, hempty⟩ := stepOp_get N b0 h0 b1 _ hso
                  obtain ⟨hInvf, hpend, hlen, hcg, hcp⟩ := ih b1 h1 bf' outs' hrr
                  refine ⟨hInvf, ?_, ?_, ?_, ?_⟩
                  · simp only [Option.toList_some, List.cons_append, List.nil_append, putsOf]
                    rw [hpend, hp]
                    simp
                  · simpa [countGets] using hlen
                  · simp only [countGets, countPuts]
                    omega
                  · simp only [countGets, countPuts]
                    omega

/-- A `buffer_put` whose empty-wait proceeds but whose mutex has count 0
blocks at the mutex wait. -/
theorem buffer_put_blocked_at_mutex (b : buffer_t) (a v : Int)
    (he : 0 < b.empty) (hm : b.mutex = 0) :
    buffer_put b a v = ([.psem_wait .empty],
      .blocked (.psem_wait .mutex) { buf := { b with empty := b.empty - 1 }, tuple := default }) := by
  simp [buffer_put, put_prog, exec, execInstr, buffer_t.semCount, buffer_t.semDec, he, hm]

/-- A `buffer_get` whose data-wait proceeds but whose mutex has count 0
blocks at the mutex wait. -/
theorem buffer_get_blocked_at_mutex (b : buffer_t) (t : tuple_t)
    (hd : 0 < b.data) (hm : b.mutex = 0) :
    buffer_get b t = ([.psem_wait .data],
      .blocked (.psem_wait .mutex) { buf := { b with data := b.data - 1 }, tuple := t }) := by
  simp [buffer_get, get_prog, exec, execInstr, buffer_t.semCount, buffer_t.semDec, hd, hm]

/-! ### The claims -/

/-- C1: for a single producer and a single consumer on one buffer of
capacity N > 0, with never more completed `buffer_get` calls than
completed `buffer_put` calls, the sequence of tuples returned by the
successive `buffer_get` calls equals the sequence of tuples passed to the
successive `buffer_put` calls, in order (FIFO). -/
theorem fifo_single_producer_single_consumer (N : Nat) (ops : List Op)
    (bf : buffer_t) (outs : List tuple_t) (_hN : 0 < N)
    (hrun : runOps (buffer_init_state N) ops = some (bf, outs)) :
    outs = (putsOf ops).take (countGets ops) := by
  obtain ⟨-, hpend, hlen, -, -⟩ := runOps_spec N ops _ (bufInv_init N) bf outs hrun
  rw [pending_init, List.nil_append] at hpend
  rw [← hpend]
  exact (List.take_left' hlen).symm

theorem fifo_single_producer_single_consumer_witness :
    [(⟨5, 9⟩ : tuple_t)] =
      (putsOf [Op.put 5 9, Op.get]).take (countGets [Op.put 5 9, Op.get]) :=
  fifo_single_producer_single_consumer 1 [Op.put 5 9, Op.get]
    { array := [⟨5, 9⟩], size := 1, «in» := 0, out := 0, mutex := 1, data := 0, empty := 1 }
    [⟨5, 9⟩] (by decide) (by decide)

/-- C2: in every state reachable from a freshly initialized buffer of
capacity N by completed `buffer_put`/`buffer_get` calls, the count of the
filled-slots semaphore (`data`) plus the count of the empty-slots
semaphore (`empty`) equals N, `data` equals the number of unread items
(puts minus gets) and `empty` equals the number of vacant slots (N minus
unread items). -/
theorem slot_conservation_invariant (N : Nat) (ops : List Op)
    (bf : buffer_t) (outs : List tuple_t)
    (hrun : runOps (buffer_init_state N) ops = some (bf, outs)) :
    bf.data + bf.empty = N ∧
    bf.data + countGets ops = countPuts ops ∧
    bf.empty + countPuts ops = N + countGets ops := by
  obtain ⟨hInv, -, -, hcg, hcp⟩ := runOps_spec N ops _ (bufInv_init N) bf outs hrun
  simp only [buffer_init_state] at hcg hcp
  exact ⟨hInv.hcons, by omega, by omega⟩

theorem slot_conservation_invariant_witness :
    (exampleBuf2.data + exampleBuf2.empty = 2) ∧
    (exampleBuf2.data + countGets [Op.put 1 1, Op.get, Op.put 2 2] =
      countPuts [Op.put 1 1, Op.get, Op.put 2 2]) ∧
    (exampleBuf2.empty + countPuts [Op.put 1 1, Op.get, Op.put 2 2] =
      2 + countGets [Op.put 1 1, Op.get, Op.put 2 2]) :=
  slot_conservation_invariant 2 [Op.put 1 1, Op.get, Op.put 2 2]
    exampleBuf2 [⟨1, 1⟩] (by decide)

/-- C3: a completed `buffer_put(buffer, a, b)` performs exactly these
steps in this order: wait on the empty-slots semaphore, wait on (acquire)
the mutex, write the pair into `array[in]`, set `in := (in + 1) mod size`,
signal (release) the mutex, signal the filled-slots semaphore — so the
blocking wait precedes the mutex acquisition and the mutex release
precedes the signal on the filled-slots semaphore. -/
theorem put_step_order (b : buffer_t) (a v : Int)
    (he : 0 < b.empty) (hm : 0 < b.mutex) (hi : b.«in» < b.array.length) :
    buffer_put b a v =
      ([.psem_wait .empty, .psem_wait .mutex, .write_a a, .write_b v,
        .advance_in, .psem_signal .mutex, .psem_signal .data],
       .done { buf := { b with
                 array := b.array.set b.«in» ⟨a, v⟩
                 «in» := (b.«in» + 1) % b.size
                 data := b.data + 1
                 empty := b.empty - 1 }
               tuple := default }) :=
  buffer_put_done b a v he hm hi

theorem put_step_order_witness :
    buffer_put { array := [⟨0, 0⟩, ⟨0, 0⟩], size := 2, «in» := 1, out := 0,
                 mutex := 1, data := 1, empty := 1 } 7 8 =
      ([.psem_wait .empty, .psem_wait .mutex, .write_a 7, .write_b 8,
        .advance_in, .psem_signal .mutex, .psem_signal .data],
       .done { buf := { array := [⟨0, 0⟩, ⟨7, 8⟩], size := 2, «in» := 0, out := 0,
                        mutex := 1, data := 2, empty := 0 }
               tuple := default }) :=
  put_step_order { array := [⟨0, 0⟩, ⟨0, 0⟩], size := 2, «in» := 1, out := 0,
                   mutex := 1, data := 1, empty := 1 } 7 8
    (by decide) (by decide) (by decide)

/-- C4: a completed `buffer_get(buffer, tuple)` performs exactly these
steps in this order: wait on the filled-slots semaphore, wait on (acquire)
the mutex, copy `array[out]` into the caller's tuple, set
`out := (out + 1) mod size`, signal (release) the mutex, signal the
empty-slots semaphore — mirroring `buffer_put` with the two counting
semaphores swapped. -/
theorem get_step_order (b : buffer_t) (t : tuple_t)
    (hd : 0 < b.data) (hm : 0 < b.mutex) :
    buffer_get b t =
      ([.psem_wait .data, .psem_wait .mutex, .read_a, .read_b,
        .advance_out, .psem_signal .mutex, .psem_signal .empty],
       .done { buf := { b with
                 out := (b.out + 1) % b.size
                 data := b.data - 1
                 empty := b.empty + 1 }
               tuple := b.array.getD b.out default }) :=
  buffer_get_done b t hd hm

theorem get_step_order_witness :
    buffer_get { array := [⟨3, 4⟩, ⟨5, 6⟩], size := 2, «in» := 0, out := 0,
                 mutex := 1, data := 2, empty := 0 } ⟨0, 0⟩ =
      ([.psem_wait .data, .psem_wait .mutex, .read_a, .read_b,
        .advance_out, .psem_signal .mutex, .psem_signal .empty],
       .done { buf := { array := [⟨3, 4⟩, ⟨5, 6⟩], size := 2, «in» := 0, out := 1,
                        mutex := 1, data := 1, empty := 1 }
               tuple := ⟨3, 4⟩ }) :=
  get_step_order { array := [⟨3, 4⟩, ⟨5, 6⟩], size := 2, «in» := 0, out := 0,
                   mutex := 1, data := 2, empty := 0 } ⟨0, 0⟩
    (by decide) (by decide)

/-- C5: after `buffer_init(buffer, size)` with size > 0 returns (the
allocation having succeeded), the buffer has an array of `size` slots,
`in = 0`, `out = 0`, mutex semaphore count 1 (unlocked), filled-slots
semaphore (`data`) count 0, and empty-slots semaphore count `size`. -/
theorem init_postcondition (size : Nat) (b : buffer_t)
    (_hpos : 0 < size) (h : buffer_init true size = .ok b) :
    b.array.length = size ∧ b.«in» = 0 ∧ b.out = 0 ∧
    b.mutex = 1 ∧ b.data = 0 ∧ b.empty = size := by
  simp only [buffer_init, if_pos] at h
  cases h
  simp [buffer_init_state]

theorem init_postcondition_witness :
    (buffer_init_state 3).array.length = 3 ∧ (buffer_init_state 3).«in» = 0 ∧
    (buffer_init_state 3).out = 0 ∧ (buffer_init_state 3).mutex = 1 ∧
    (buffer_init_state 3).data = 0 ∧ (buffer_init_state 3).empty = 3 :=
  init_postcondition 3 (buffer_init_state 3) (by decide) (by decide)

/-- C6: if the array allocation fails during `buffer_init`, the process
exits with failure status and no buffer is returned; on every path where
`buffer_init` returns normally the allocation succeeded and every field of
the returned buffer is fully initialized. -/
theorem init_alloc_failure_aborts (size : Nat) :
    buffer_init false size = .exitFailure ∧
    ∀ (malloc_ok : Bool) (b : buffer_t), buffer_init malloc_ok size = .ok b →
      malloc_ok = true ∧ b.array.length = size ∧ b.«in» = 0 ∧ b.out = 0 ∧
      b.mutex = 1 ∧ b.data = 0 ∧ b.empty = size := by
  refine ⟨rfl, ?_⟩
  intro malloc_ok b h
  cases malloc_ok with
  | false => exact absurd h (by simp [buffer_init])
  | true =>
      simp only [buffer_init, if_pos] at h
      cases h
      simp [buffer_init_state]

theorem init_alloc_failure_aborts_witness :
    (buffer_init false 4 = .exitFailure) ∧
    (true = true ∧ (buffer_init_state 4).array.length = 4 ∧
      (buffer_init_state 4).«in» = 0 ∧ (buffer_init_state 4).out = 0 ∧
      (buffer_init_state 4).mutex = 1 ∧ (buffer_init_state 4).data = 0 ∧
      (buffer_init_state 4).empty = 4) :=
  ⟨(init_alloc_failure_aborts 4).1,
   (init_alloc_failure_aborts 4).2 true (buffer_init_state 4) (by decide)⟩

/-- C7 counterexample: initializing two buffers one after the other
stores two DIFFERENT mutex semaphore instances (allocation ids 0 and 3),
refuting the claim that all buffer instances share one process-wide
mutex variable. -/
theorem shared_mutex_counterexample :
    (buffer_init_sems (buffer_init_sems ⟨0⟩ 2).2 3).1.mutex ≠
      (buffer_init_sems ⟨0⟩ 2).1.mutex := by
  decide

/-- C7 (amended): `buffer_init` gives every buffer its own mutex: it
stores a freshly created `psem_init(1)` semaphore in the buffer's `mutex`
field, so any two buffers initialized one after the other hold distinct
mutex instances — `buffer_put`/`buffer_get` on one buffer use a different
mutex than on the other. -/
theorem per_buffer_mutex (store : SemStore) (size1 size2 : Nat) :
    (buffer_init_sems store size1).1.mutex.count = 1 ∧
    (buffer_init_sems (buffer_init_sems store size1).2 size2).1.mutex.count = 1 ∧
    (buffer_init_sems store size1).1.mutex ≠
      (buffer_init_sems (buffer_init_sems store size1).2 size2).1.mutex := by
  refine ⟨rfl, rfl, ?_⟩
  simp only [buffer_init_sems, psem_init, ne_eq, psem_t.mk.injEq]
  omega

/-- C8: `buffer_init` does not special-case size 0: construction of a
zero-capacity buffer completes normally with empty-slots semaphore count
0, and on such a buffer every subsequent `buffer_put` — from any state
reachable by completed calls — blocks at the wait on the empty-slots
semaphore having executed no statement at all, so it never reaches the
array write (no signal on that semaphore can ever occur: every reachable
state keeps its count 0). -/
theorem zero_capacity_put_blocks :
    buffer_init true 0 = .ok (buffer_init_state 0) ∧
    (buffer_init_state 0).empty = 0 ∧
    ∀ (ops : List Op) (b : buffer_t) (outs : List tuple_t) (a v : Int),
      runOps (buffer_init_state 0) ops = some (b, outs) →
      buffer_put b a v = ([], .blocked (.psem_wait .empty) { buf := b, tuple := default }) := by
  refine ⟨rfl, rfl, ?_⟩
  intro ops b outs a v hrun
  obtain ⟨hInv, -, -, -, -⟩ := runOps_spec 0 ops _ (bufInv_init 0) b outs hrun
  have hcons := hInv.hcons
  exact buffer_put_blocked b a v (by omega)

theorem zero_capacity_put_blocks_witness :
    buffer_put (buffer_init_state 0) 1 2 =
      ([], .blocked (.psem_wait .empty) { buf := buffer_init_state 0, tuple := default }) :=
  zero_capacity_put_blocks.2.2 [] (buffer_init_state 0) [] 1 2 (by decide)

/-- C9: a completed `buffer_get` changes only the `out` index and the two
counting-semaphore counts: the array contents (including the slot just
read, which is not erased), the `in` index, the size, and the mutex count
are exactly as before the call. -/
theorem get_frame (b : buffer_t) (t : tuple_t) (tr : List Instr) (st' : CallState)
    (h : buffer_get b t = (tr, .done st')) :
    st'.buf.array = b.array ∧ st'.buf.«in» = b.«in» ∧ st'.buf.size = b.size ∧
    st'.buf.mutex = b.mutex ∧
    st'.buf.out = (b.out + 1) % b.size ∧
    st'.buf.data = b.data - 1 ∧ st'.buf.empty = b.empty + 1 := by
  rcases Nat.eq_zero_or_pos b.data with hd | hd
  · rw [buffer_get_blocked b t hd] at h
    exact absurd h (by simp)
  rcases Nat.eq_zero_or_pos b.mutex with hm | hm
  · rw [buffer_get_blocked_at_mutex b t hd hm] at h
    exact absurd h (by simp)
  rw [buffer_get_done b t hd hm] at h
  simp only [Prod.mk.injEq, ExecResult.done.injEq] at h
  obtain ⟨-, rfl⟩ := h
  exact ⟨rfl, rfl, rfl, rfl, rfl, rfl, rfl⟩

theorem get_frame_witness :
    ({ buf := { array := [⟨3, 4⟩], size := 1, «in» := 0, out := 0,
                mutex := 1, data := 0, empty := 1 },
       tuple := ⟨3, 4⟩ } : CallState).buf.array = [(⟨3, 4⟩ : tuple_t)] ∧
    ({ buf := { array := [⟨3, 4⟩], size := 1, «in» := 0, out := 0,
                mutex := 1, data := 0, empty := 1 },
       tuple := ⟨3, 4⟩ } : CallState).buf.«in» = 0 ∧
    ({ buf := { array := [⟨3, 4⟩], size := 1, «in» := 0, out := 0,
                mutex := 1, data := 0, empty := 1 },
       tuple := ⟨3, 4⟩ } : CallState).buf.size = 1 ∧
    ({ buf := { array := [⟨3, 4⟩], size := 1, «in» := 0, out := 0,
                mutex := 1, data := 0, empty := 1 },
       tuple := ⟨3, 4⟩ } : CallState).buf.mutex = 1 ∧
    ({ buf := { array := [⟨3, 4⟩], size := 1, «in» := 0, out := 0,
                mutex := 1, data := 0, empty := 1 },
       tuple := ⟨3, 4⟩ } : CallState).buf.out = (0 + 1) % 1 ∧
    ({ buf := { array := [⟨3, 4⟩], size := 1, «in» := 0, out := 0,
                mutex := 1, data := 0, empty := 1 },
       tuple := ⟨3, 4⟩ } : CallState).buf.data = 1 - 1 ∧
    ({ buf := { array := [⟨3, 4⟩], size := 1, «in» := 0, out := 0,
                mutex := 1, data := 0, empty := 1 },
       tuple := ⟨3, 4⟩ } : CallState).buf.empty = 0 + 1 :=
  get_frame { array := [⟨3, 4⟩], size := 1, «in» := 0, out := 0,
              mutex := 1, data := 1, empty := 0 } ⟨0, 0⟩ get_prog
    { buf := { array := [⟨3, 4⟩], size := 1, «in» := 0, out := 0,
               mutex := 1, data := 0, empty := 1 },
      tuple := ⟨3, 4⟩ } (by decide)

/-- C10: a completed `buffer_put` modifies exactly one array slot — the
one at the pre-call value of `in` — and besides that slot only the `in`
index and the two counting-semaphore counts change; `out`, `size`, the
mutex count, the array length, and every other array slot are exactly as
before the call. -/
theorem put_frame (b : buffer_t) (a v : Int) (tr : List Instr) (st' : CallState)
    (hi : b.«in» < b.array.length) (h : buffer_put b a v = (tr, .done st')) :
    st'.buf.out = b.out ∧ st'.buf.size = b.size ∧ st'.buf.mutex = b.mutex ∧
    st'.buf.«in» = (b.«in» + 1) % b.size ∧
    st'.buf.data = b.data + 1 ∧ st'.buf.empty = b.empty - 1 ∧
    st'.buf.array.length = b.array.length ∧
    st'.buf.array.getD b.«in» default = ⟨a, v⟩ ∧
    ∀ j, j ≠ b.«in» → st'.buf.array.getD j default = b.array.getD j default := by
  rcases Nat.eq_zero_or_pos b.empty with he | he
  · rw [buffer_put_blocked b a v he] at h
    exact absurd h (by simp)
  rcases Nat.eq_zero_or_pos b.mutex with hm | hm
  · rw [buffer_put_blocked_at_mutex b a v he hm] at h
    exact absurd h (by simp)
  rw [buffer_put_done b a v he hm hi] at h
  simp only [Prod.mk.injEq, ExecResult.done.injEq] at h
  obtain ⟨-, rfl⟩ := h
  refine ⟨rfl, rfl, rfl, rfl, rfl, rfl, by simp, ?_, ?_⟩
  · exact getD_set_self _ _ _ _ hi
  · intro j hj
    exact getD_set_ne _ _ _ _ _ (Ne.symm hj)

theorem put_frame_witness :
    ({ buf := { array := [⟨0, 0⟩, ⟨7, 8⟩], size := 2, «in» := 0, out := 0,
                mutex := 1, data := 2, empty := 0 },
       tuple := default } : CallState).buf.out = 0 ∧
    ({ buf := { array := [⟨0, 0⟩, ⟨7, 8⟩], size := 2, «in» := 0, out := 0,
                mutex := 1, data := 2, empty := 0 },
       tuple := default } : CallState).buf.size = 2 ∧
    ({ buf := { array := [⟨0, 0⟩, ⟨7, 8⟩], size := 2, «in» := 0, out := 0,
                mutex := 1, data := 2, empty := 0 },
       tuple := default } : CallState).buf.mutex = 1 ∧
    ({ buf := { array := [⟨0, 0⟩, ⟨7, 8⟩], size := 2, «in» := 0, out := 0,
                mutex := 1, data := 2, empty := 0 },
       tuple := default } : CallState).buf.«in» = (1 + 1) % 2 ∧
    ({ buf := { array := [⟨0, 0⟩, ⟨7, 8⟩], size := 2, «in» := 0, out := 0,
                mutex := 1, data := 2, empty := 0 },
       tuple := default } : CallState).buf.data = 1 + 1 ∧
    ({ buf := { array := [⟨0, 0⟩, ⟨7, 8⟩], size := 2, «in» := 0, out := 0,
                mutex := 1, data := 2, empty := 0 },
       tuple := default } : CallState).buf.empty = 1 - 1 ∧
    ({ buf := { array := [⟨0, 0⟩, ⟨7, 8⟩], size := 2, «in» := 0, out := 0,
                mutex := 1, data := 2, empty := 0 },
       tuple := default } : CallState).buf.array.length = 2 ∧
    ({ buf := { array := [⟨0, 0⟩, ⟨7, 8⟩], size := 2, «in» := 0, out := 0,
                mutex := 1, data := 2, empty := 0 },
       tuple := default } : CallState).buf.array.getD 1 default = ⟨7, 8⟩ ∧
    (∀ j, j ≠ 1 →
      ({ buf := { array := [⟨0, 0⟩, ⟨7, 8⟩], size := 2, «in» := 0, out := 0,
                  mutex := 1, data := 2, empty := 0 },
         tuple := default } : CallState).buf.array.getD j default =
        ([⟨0, 0⟩, ⟨0, 0⟩] : List tuple_t).getD j default) :=
  put_frame { array := [⟨0, 0⟩, ⟨0, 0⟩], size := 2, «in» := 1, out := 0,
              mutex := 1, data := 1, empty := 1 } 7 8 (put_prog 7 8)
    { buf := { array := [⟨0, 0⟩, ⟨7, 8⟩], size := 2, «in» := 0, out := 0,
               mutex := 1, data := 2, empty := 0 },
      tuple := default } (by decide) (by decide)
